import Mathlib

/-!
Verification development for the jupyter-js-notebook model layer
(`src/notebook/model.ts` and the cell models it imports).

The TypeScript model stores JSON-shaped data in serialized form
(`JSON.stringify` / `JSON.parse`): notebook `kernelspec` / `languageInfo`,
cell `tags`, and every metadata-cursor namespace hold strings that are
parsed on read.  We therefore first build an executable model of JSON
values, of the `JSON.stringify` serializer and of a `JSON.parse`
deserializer, and prove the round-trip law the JS builtins satisfy; the
model code itself is translated from the TypeScript source on top of it.

Strings are modelled as `List Char`.  JSON numbers are modelled as
integers (the only numbers the model layer stores: execution counts and
`origNbformat`).
-/

namespace JJN

/-- A JSON value: the values storable in the model's metadata maps and in
its serialized object-valued attributes.  Object fields keep insertion
order, as JS objects do. -/
inductive JSONValue : Type where
  | null : JSONValue
  | bool (b : Bool) : JSONValue
  | num (n : Int) : JSONValue
  | str (s : List Char) : JSONValue
  | arr (elts : List JSONValue) : JSONValue
  | obj (fields : List (List Char × JSONValue)) : JSONValue

/-! ### Decimal digits -/

/-- Reversed (little-endian) decimal digits of a natural number; the first
argument is fuel, so the definition is structurally recursive and reduces
by `rfl`. -/
def natToRevDigits : Nat → Nat → List Nat
  | 0, _ => []
  | fuel + 1, n => if n = 0 then [] else n % 10 :: natToRevDigits fuel (n / 10)

/-- The numeric value of a little-endian digit list. -/
def ofRevDigits : List Nat → Nat
  | [] => 0
  | d :: ds => d + 10 * ofRevDigits ds

/-- The character for a decimal digit. -/
def digitChar (d : Nat) : Char := Char.ofNat (48 + d % 10)

/-- Whether a character is a decimal digit. -/
def isDigitChar (c : Char) : Bool := 48 ≤ c.toNat && c.toNat ≤ 57

/-- The digit value of a character. -/
def charVal (c : Char) : Nat := c.toNat - 48

/-- Decimal representation of a natural number. -/
def natChars (n : Nat) : List Char :=
  if n = 0 then ['0'] else ((natToRevDigits n n).map digitChar).reverse

/-- Decimal representation of an integer, as `JSON.stringify` and JS
template literals print one. -/
def intChars : Int → List Char
  | .ofNat n => natChars n
  | .negSucc m => '-' :: natChars (m + 1)

/-! ### Serialization (model of `JSON.stringify`) -/

/-- String-body escaping: quote and backslash are preceded by a
backslash. -/
def escapeString : List Char → List Char
  | [] => []
  | c :: cs =>
    if c = '"' ∨ c = '\\' then '\\' :: c :: escapeString cs
    else c :: escapeString cs

mutual

/-- Model of `JSON.stringify` on JSON values. -/
def serialize : JSONValue → List Char
  | .null => "null".data
  | .bool true => "true".data
  | .bool false => "false".data
  | .num n => intChars n
  | .str s => '"' :: (escapeString s ++ ['"'])
  | .arr [] => ['[', ']']
  | .arr (v :: vs) => '[' :: (serialize v ++ serializeElems vs ++ [']'])
  | .obj [] => ['\x7b', '\x7d']
  | .obj (f :: fs) => '\x7b' :: (serializeField f ++ serializeFields fs ++ ['\x7d'])

/-- The remaining elements of a nonempty array, each preceded by a comma. -/
def serializeElems : List JSONValue → List Char
  | [] => []
  | v :: vs => ',' :: (serialize v ++ serializeElems vs)

/-- One object field: quoted key, colon, value. -/
def serializeField : List Char × JSONValue → List Char
  | (k, v) => '"' :: (escapeString k ++ ['"', ':'] ++ serialize v)

/-- The remaining fields of a nonempty object, each preceded by a comma. -/
def serializeFields : List (List Char × JSONValue) → List Char
  | [] => []
  | f :: fs => ',' :: (serializeField f ++ serializeFields fs)

end

/-! ### Deserialization (model of `JSON.parse`)

A recursive-descent parser over the grammar `serialize` emits.  Fuel makes
every function structurally recursive, so parsing reduces definitionally;
`parse` supplies ample fuel.  `JSON.parse` throwing on malformed input is
modelled by `Option`. -/

/-- Parse the body of a string literal after the opening quote, undoing
`escapeString`; returns the decoded characters and the input after the
closing quote. -/
def parseStringBody : List Char → Option (List Char × List Char)
  | [] => none
  | c :: cs =>
    if c = '\\' then
      match cs with
      | [] => none
      | d :: cs2 => (parseStringBody cs2).map fun p => (d :: p.1, p.2)
    else if c = '"' then some ([], cs)
    else (parseStringBody cs).map fun p => (c :: p.1, p.2)

/-- Parse a nonempty run of decimal digits. -/
def parseNat (cs : List Char) : Option (Nat × List Char) :=
  let ds := cs.takeWhile isDigitChar
  if ds = [] then none
  else some (ds.foldl (fun a c => 10 * a + charVal c) 0, cs.dropWhile isDigitChar)

/-- Parse `,v,v,…]` — the part of a nonempty array after its first
element — given a parser `pv` for one value. -/
def parseElems (pv : List Char → Option (JSONValue × List Char)) :
    Nat → List Char → Option (List JSONValue × List Char)
  | _, ']' :: r => some ([], r)
  | fuel + 1, ',' :: r => do
    let (v, r1) ← pv r
    let (vs, r2) ← parseElems pv fuel r1
    pure (v :: vs, r2)
  | _, _ => none

/-- Parse one `"key":value` object field, given a parser `pv` for the
value. -/
def parseField (pv : List Char → Option (JSONValue × List Char)) :
    List Char → Option ((List Char × JSONValue) × List Char)
  | '"' :: rest => do
    let (k, r1) ← parseStringBody rest
    match r1 with
    | ':' :: r2 => do
      let (v, r3) ← pv r2
      pure ((k, v), r3)
    | _ => none
  | _ => none

/-- Parse `,"k":v,…}` — the part of a nonempty object after its first
field. -/
def parseFields (pv : List Char → Option (JSONValue × List Char)) :
    Nat → List Char → Option (List (List Char × JSONValue) × List Char)
  | _, '\x7d' :: r => some ([], r)
  | fuel + 1, ',' :: r => do
    let (f, r1) ← parseField pv r
    let (fs, r2) ← parseFields pv fuel r1
    pure (f :: fs, r2)
  | _, _ => none

/-- Parse one JSON value, returning it and the remaining input. -/
def parseVal : Nat → List Char → Option (JSONValue × List Char)
  | 0, _ => none
  | fuel + 1, cs =>
    match cs with
    | [] => none
    | c :: rest =>
      if c = 'n' then
        match rest with
        | 'u' :: 'l' :: 'l' :: r => some (.null, r)
        | _ => none
      else if c = 't' then
        match rest with
        | 'r' :: 'u' :: 'e' :: r => some (.bool true, r)
        | _ => none
      else if c = 'f' then
        match rest with
        | 'a' :: 'l' :: 's' :: 'e' :: r => some (.bool false, r)
        | _ => none
      else if c = '"' then
        (parseStringBody rest).map fun p => (.str p.1, p.2)
      else if c = '[' then
        match rest with
        | [] => none
        | c2 :: rest2 =>
          if c2 = ']' then some (.arr [], rest2)
          else do
            let (v, r1) ← parseVal fuel (c2 :: rest2)
            let (vs, r2) ← parseElems (parseVal fuel) fuel r1
            pure (.arr (v :: vs), r2)
      else if c = '\x7b' then
        match rest with
        | [] => none
        | c2 :: rest2 =>
          if c2 = '\x7d' then some (.obj [], rest2)
          else do
            let (fld, r1) ← parseField (parseVal fuel) (c2 :: rest2)
            let (flds, r2) ← parseFields (parseVal fuel) fuel r1
            pure (.obj (fld :: flds), r2)
      else if c = '-' then
        (parseNat rest).map fun p => (.num (-(p.1 : Int)), p.2)
      else if isDigitChar c then
        (parseNat (c :: rest)).map fun p => (.num ((p.1 : Int)), p.2)
      else none

/-- Model of `JSON.parse`: parse a whole input as one JSON value.
`none` models the exception thrown on malformed input. -/
def parse (cs : List Char) : Option JSONValue :=
  match parseVal (cs.length + 1) cs with
  | some (v, []) => some v
  | _ => none

/-! ### Round-trip: `parse (serialize v) = some v` -/

/-- Characters that may legally follow a serialized value: end of input,
or the continuation of an enclosing array or object. -/
def isBoundary : List Char → Bool
  | [] => true
  | c :: _ => c = ',' || c = ']' || c = '\x7d'

theorem ofRevDigits_natToRevDigits : ∀ fuel n, n ≤ fuel →
    ofRevDigits (natToRevDigits fuel n) = n := by
  intro fuel
  induction fuel with
  | zero =>
    intro n h
    interval_cases n
    simp [natToRevDigits, ofRevDigits]
  | succ f IH =>
    intro n h
    by_cases h0 : n = 0
    · simp [natToRevDigits, h0, ofRevDigits]
    · have hlt : n / 10 < n := Nat.div_lt_self (Nat.pos_of_ne_zero h0) (by omega)
      rw [natToRevDigits, if_neg h0, ofRevDigits, IH (n / 10) (by omega)]
      omega

theorem natToRevDigits_lt : ∀ fuel n d, d ∈ natToRevDigits fuel n → d < 10 := by
  intro fuel
  induction fuel with
  | zero => intro n d h; simp [natToRevDigits] at h
  | succ f IH =>
    intro n d h
    by_cases h0 : n = 0
    · rw [natToRevDigits, if_pos h0] at h
      simp at h
    · rw [natToRevDigits, if_neg h0] at h
      rcases List.mem_cons.mp h with h | h
      · omega
      · exact IH _ _ h

theorem charVal_digitChar {d : Nat} (h : d < 10) : charVal (digitChar d) = d := by
  interval_cases d <;> decide

theorem isDigitChar_digitChar {d : Nat} (h : d < 10) : isDigitChar (digitChar d) = true := by
  interval_cases d <;> decide

theorem foldl_digitChars : ∀ (ds : List Nat), (∀ d ∈ ds, d < 10) → ∀ (acc : Nat),
    ((ds.map digitChar).reverse).foldl (fun a c => 10 * a + charVal c) acc
      = acc * 10 ^ ds.length + ofRevDigits ds := by
  intro ds
  induction ds with
  | nil => intro _ acc; simp [ofRevDigits]
  | cons d ds IH =>
    intro h acc
    simp only [List.map_cons, List.reverse_cons, List.foldl_append, List.foldl_cons,
      List.foldl_nil]
    rw [IH (fun x hx => h x (List.mem_cons_of_mem _ hx)) acc,
      charVal_digitChar (h d (List.mem_cons_self _ _))]
    simp only [ofRevDigits, List.length_cons, pow_succ]
    ring

theorem charsFold_natChars (n : Nat) :
    (natChars n).foldl (fun a c => 10 * a + charVal c) 0 = n := by
  by_cases h0 : n = 0
  · subst h0; decide
  · rw [natChars, if_neg h0,
      foldl_digitChars _ (fun d hd => natToRevDigits_lt _ _ _ hd) 0,
      ofRevDigits_natToRevDigits n n le_rfl]
    simp

theorem natChars_all_digits (n : Nat) : ∀ c ∈ natChars n, isDigitChar c = true := by
  intro c hc
  by_cases h0 : n = 0
  · subst h0
    simp [natChars] at hc
    subst hc
    decide
  · rw [natChars, if_neg h0] at hc
    simp only [List.mem_reverse, List.mem_map] at hc
    obtain ⟨d, hd, rfl⟩ := hc
    exact isDigitChar_digitChar (natToRevDigits_lt _ _ _ hd)

theorem natChars_ne_nil (n : Nat) : natChars n ≠ [] := by
  by_cases h0 : n = 0
  · simp [natChars, h0]
  · rw [natChars, if_neg h0]
    intro h
    simp only [List.reverse_eq_nil_iff, List.map_eq_nil_iff] at h
    have := ofRevDigits_natToRevDigits n n le_rfl
    rw [h] at this
    simp [ofRevDigits] at this
    exact h0 this.symm

theorem takeWhile_all_append (p : Char → Bool) :
    ∀ (xs ys : List Char), (∀ c ∈ xs, p c = true) →
      (xs ++ ys).takeWhile p = xs ++ ys.takeWhile p := by
  intro xs
  induction xs with
  | nil => intro ys _; simp
  | cons x xs IH =>
    intro ys h
    simp only [List.cons_append, List.takeWhile_cons, h x (List.mem_cons_self _ _),
      IH ys (fun c hc => h c (List.mem_cons_of_mem _ hc))]
    simp

theorem dropWhile_all_append (p : Char → Bool) :
    ∀ (xs ys : List Char), (∀ c ∈ xs, p c = true) →
      (xs ++ ys).dropWhile p = ys.dropWhile p := by
  intro xs
  induction xs with
  | nil => intro ys _; simp
  | cons x xs IH =>
    intro ys h
    simp only [List.cons_append, List.dropWhile_cons, h x (List.mem_cons_self _ _),
      IH ys (fun c hc => h c (List.mem_cons_of_mem _ hc))]
    simp

theorem takeWhile_isDigit_boundary : ∀ {rest : List Char}, isBoundary rest = true →
    rest.takeWhile isDigitChar = [] := by
  intro rest h
  cases rest with
  | nil => rfl
  | cons c cs =>
    simp only [isBoundary, Bool.or_eq_true, decide_eq_true_eq] at h
    rcases h with (rfl | rfl) | rfl <;> rfl

theorem dropWhile_isDigit_boundary : ∀ {rest : List Char}, isBoundary rest = true →
    rest.dropWhile isDigitChar = rest := by
  intro rest h
  cases rest with
  | nil => rfl
  | cons c cs =>
    simp only [isBoundary, Bool.or_eq_true, decide_eq_true_eq] at h
    rcases h with (rfl | rfl) | rfl <;> rfl

theorem parseNat_natChars (n : Nat) {rest : List Char} (h : isBoundary rest = true) :
    parseNat (natChars n ++ rest) = some (n, rest) := by
  have h1 : (natChars n ++ rest).takeWhile isDigitChar = natChars n := by
    rw [takeWhile_all_append _ _ _ (natChars_all_digits n), takeWhile_isDigit_boundary h,
      List.append_nil]
  have h2 : (natChars n ++ rest).dropWhile isDigitChar = rest := by
    rw [dropWhile_all_append _ _ _ (natChars_all_digits n), dropWhile_isDigit_boundary h]
  simp only [parseNat, h1, h2, if_neg (natChars_ne_nil n), charsFold_natChars]

theorem parseStringBody_escape : ∀ (s rest : List Char),
    parseStringBody (escapeString s ++ '"' :: rest) = some (s, rest) := by
  intro s
  induction s with
  | nil =>
    intro rest
    rw [escapeString, List.nil_append, parseStringBody.eq_def]
    simp
  | cons c cs IH =>
    intro rest
    by_cases hc : c = '"' ∨ c = '\\'
    · rw [escapeString, if_pos hc]
      simp only [List.cons_append]
      rw [parseStringBody.eq_def]
      simp [IH rest]
    · have h1 : ¬ c = '\\' := fun h => hc (Or.inr h)
      have h2 : ¬ c = '"' := fun h => hc (Or.inl h)
      rw [escapeString, if_neg hc]
      simp only [List.cons_append]
      rw [parseStringBody.eq_def]
      simp [h1, h2, IH rest]

theorem digit_ne {c : Char} (h : isDigitChar c = true) :
    c ≠ 'n' ∧ c ≠ 't' ∧ c ≠ 'f' ∧ c ≠ '"' ∧ c ≠ '[' ∧ c ≠ '\x7b' ∧ c ≠ '-' := by
  refine ⟨?_, ?_, ?_, ?_, ?_, ?_, ?_⟩ <;>
    · intro h2
      rw [h2] at h
      exact absurd h (by decide)

/-- Characters a serialized JSON value can start with. -/
def startOK (c : Char) : Bool :=
  c = 'n' || c = 't' || c = 'f' || c = '"' || c = '[' || c = '\x7b' || c = '-' || isDigitChar c

theorem startOK_ne {c : Char} (h : startOK c = true) :
    c ≠ ']' ∧ c ≠ '\x7d' ∧ c ≠ ':' ∧ c ≠ ',' := by
  refine ⟨?_, ?_, ?_, ?_⟩ <;>
    · intro h2
      rw [h2] at h
      exact absurd h (by decide)

theorem serialize_head : ∀ v : JSONValue, ∃ c cs, serialize v = c :: cs ∧ startOK c = true := by
  intro v
  cases v with
  | null => exact ⟨'n', _, rfl, by decide⟩
  | bool b =>
    cases b with
    | true => exact ⟨'t', _, rfl, by decide⟩
    | false => exact ⟨'f', _, rfl, by decide⟩
  | num n =>
    cases n with
    | ofNat m =>
      obtain ⟨c, cs, hc⟩ := List.exists_cons_of_ne_nil (natChars_ne_nil m)
      have hdig : isDigitChar c = true := by
        apply natChars_all_digits m
        rw [hc]
        exact List.mem_cons_self _ _
      exact ⟨c, cs, by rw [serialize, intChars, hc], by simp [startOK, hdig]⟩
    | negSucc m => exact ⟨'-', _, by rw [serialize, intChars], by decide⟩
  | str s => exact ⟨'"', _, by rw [serialize], by decide⟩
  | arr l =>
    cases l with
    | nil => exact ⟨'[', _, by rw [serialize], by decide⟩
    | cons v vs => exact ⟨'[', _, by rw [serialize], by decide⟩
  | obj l =>
    cases l with
    | nil => exact ⟨'\x7b', _, by rw [serialize], by decide⟩
    | cons f fs => exact ⟨'\x7b', _, by rw [serialize], by decide⟩

theorem length_serializeElems : ∀ vs : List JSONValue,
    vs.length ≤ (serializeElems vs).length := by
  intro vs
  induction vs with
  | nil => simp [serializeElems]
  | cons v vs IH =>
    rw [serializeElems]
    simp [List.length_append]
    omega

theorem length_serializeFields : ∀ fs : List (List Char × JSONValue),
    fs.length ≤ (serializeFields fs).length := by
  intro fs
  induction fs with
  | nil => simp [serializeFields]
  | cons f fs IH =>
    rw [serializeFields]
    simp [List.length_append]
    omega

theorem isBoundary_serializeElems (vs : List JSONValue) (rest : List Char) :
    isBoundary (serializeElems vs ++ ']' :: rest) = true := by
  cases vs with
  | nil => rw [serializeElems]; rfl
  | cons v vs => rw [serializeElems]; rfl

theorem isBoundary_serializeFields (fs : List (List Char × JSONValue)) (rest : List Char) :
    isBoundary (serializeFields fs ++ '\x7d' :: rest) = true := by
  cases fs with
  | nil => rw [serializeFields]; rfl
  | cons f fs => rw [serializeFields]; rfl

/-! Reduction lemmas: one unfolding step of the parser at each
concrete head character.  All hold definitionally. -/

theorem parseElems_rb (pv : List Char → Option (JSONValue × List Char)) (fuel : Nat)
    (r : List Char) : parseElems pv fuel (']' :: r) = some ([], r) := by
  cases fuel <;> rfl

theorem parseElems_comma (pv : List Char → Option (JSONValue × List Char)) (fuel : Nat)
    (r : List Char) :
    parseElems pv (fuel + 1) (',' :: r) = (do
      let (v, r1) ← pv r
      let (vs, r2) ← parseElems pv fuel r1
      pure (v :: vs, r2)) := rfl

theorem parseFields_rb (pv : List Char → Option (JSONValue × List Char)) (fuel : Nat)
    (r : List Char) : parseFields pv fuel ('\x7d' :: r) = some ([], r) := by
  cases fuel <;> rfl

theorem parseFields_comma (pv : List Char → Option (JSONValue × List Char)) (fuel : Nat)
    (r : List Char) :
    parseFields pv (fuel + 1) (',' :: r) = (do
      let (f, r1) ← parseField pv r
      let (fs, r2) ← parseFields pv fuel r1
      pure (f :: fs, r2)) := rfl

theorem parseField_quote (pv : List Char → Option (JSONValue × List Char))
    (rest : List Char) :
    parseField pv ('"' :: rest) = (do
      let (k, r1) ← parseStringBody rest
      match r1 with
      | ':' :: r2 => do
        let (v, r3) ← pv r2
        pure ((k, v), r3)
      | _ => none) := rfl

theorem parseVal_null (f : Nat) (r : List Char) :
    parseVal (f + 1) ('n' :: 'u' :: 'l' :: 'l' :: r) = some (.null, r) := rfl

theorem parseVal_true (f : Nat) (r : List Char) :
    parseVal (f + 1) ('t' :: 'r' :: 'u' :: 'e' :: r) = some (.bool true, r) := rfl

theorem parseVal_false (f : Nat) (r : List Char) :
    parseVal (f + 1) ('f' :: 'a' :: 'l' :: 's' :: 'e' :: r) = some (.bool false, r) := rfl

theorem parseVal_str (f : Nat) (cs : List Char) :
    parseVal (f + 1) ('"' :: cs)
      = (parseStringBody cs).map fun p => (.str p.1, p.2) := rfl

theorem parseVal_neg (f : Nat) (cs : List Char) :
    parseVal (f + 1) ('-' :: cs)
      = (parseNat cs).map fun p => (.num (-(p.1 : Int)), p.2) := rfl

theorem parseVal_arr_rb (f : Nat) (r : List Char) :
    parseVal (f + 1) ('[' :: ']' :: r) = some (.arr [], r) := rfl

theorem parseVal_arr_cons (f : Nat) (c2 : Char) (rest2 : List Char) :
    parseVal (f + 1) ('[' :: c2 :: rest2) = (if c2 = ']' then some (.arr [], rest2)
      else do
        let (v, r1) ← parseVal f (c2 :: rest2)
        let (vs, r2) ← parseElems (parseVal f) f r1
        pure (.arr (v :: vs), r2)) := rfl

theorem parseVal_obj_rb (f : Nat) (r : List Char) :
    parseVal (f + 1) ('\x7b' :: '\x7d' :: r) = some (.obj [], r) := rfl

theorem parseVal_obj_cons (f : Nat) (c2 : Char) (rest2 : List Char) :
    parseVal (f + 1) ('\x7b' :: c2 :: rest2) = (if c2 = '\x7d' then some (.obj [], rest2)
      else do
        let (fld, r1) ← parseField (parseVal f) (c2 :: rest2)
        let (flds, r2) ← parseFields (parseVal f) f r1
        pure (.obj (fld :: flds), r2)) := rfl

theorem parseVal_step (f : Nat) (c : Char) (cs : List Char) :
    parseVal (f + 1) (c :: cs) =
      (if c = 'n' then
        match cs with
        | 'u' :: 'l' :: 'l' :: r => some (.null, r)
        | _ => none
      else if c = 't' then
        match cs with
        | 'r' :: 'u' :: 'e' :: r => some (.bool true, r)
        | _ => none
      else if c = 'f' then
        match cs with
        | 'a' :: 'l' :: 's' :: 'e' :: r => some (.bool false, r)
        | _ => none
      else if c = '"' then
        (parseStringBody cs).map fun p => (.str p.1, p.2)
      else if c = '[' then
        match cs with
        | [] => none
        | c2 :: rest2 =>
          if c2 = ']' then some (.arr [], rest2)
          else do
            let (v, r1) ← parseVal f (c2 :: rest2)
            let (vs, r2) ← parseElems (parseVal f) f r1
            pure (.arr (v :: vs), r2)
      else if c = '\x7b' then
        match cs with
        | [] => none
        | c2 :: rest2 =>
          if c2 = '\x7d' then some (.obj [], rest2)
          else do
            let (fld, r1) ← parseField (parseVal f) (c2 :: rest2)
            let (flds, r2) ← parseFields (parseVal f) f r1
            pure (.obj (fld :: flds), r2)
      else if c = '-' then
        (parseNat cs).map fun p => (.num (-(p.1 : Int)), p.2)
      else if isDigitChar c then
        (parseNat (c :: cs)).map fun p => (.num ((p.1 : Int)), p.2)
      else none) := rfl

theorem parseVal_digit (f : Nat) (c : Char) (cs : List Char) (h : isDigitChar c = true) :
    parseVal (f + 1) (c :: cs)
      = (parseNat (c :: cs)).map fun p => (.num ((p.1 : Int)), p.2) := by
  obtain ⟨h1, h2, h3, h4, h5, h6, h7⟩ := digit_ne h
  rw [parseVal_step, if_neg h1, if_neg h2, if_neg h3, if_neg h4, if_neg h5, if_neg h6,
    if_neg h7, if_pos h]

theorem parseElems_spec (pv : List Char → Option (JSONValue × List Char)) :
    ∀ (vs : List JSONValue) (rest : List Char) (fuel : Nat),
      (∀ v r, v ∈ vs → isBoundary r = true →
        (serialize v).length + r.length ≤ (serializeElems vs).length + rest.length →
        pv (serialize v ++ r) = some (v, r)) →
      vs.length < fuel →
      parseElems pv fuel (serializeElems vs ++ ']' :: rest) = some (vs, rest) := by
  intro vs
  induction vs with
  | nil =>
    intro rest fuel _ _
    rw [serializeElems, List.nil_append, parseElems_rb]
  | cons v vs IH =>
    intro rest fuel Hpv hf
    cases fuel with
    | zero => simp at hf
    | succ f =>
      have hb : isBoundary (serializeElems vs ++ ']' :: rest) = true :=
        isBoundary_serializeElems vs rest
      have h1 : pv (serialize v ++ (serializeElems vs ++ ']' :: rest))
          = some (v, serializeElems vs ++ ']' :: rest) := by
        apply Hpv v _ (List.mem_cons_self _ _) hb
        rw [serializeElems]
        simp [List.length_append]
        omega
      have h2 : parseElems pv f (serializeElems vs ++ ']' :: rest) = some (vs, rest) := by
        apply IH
        · intro w r hw hb2 hl2
          apply Hpv w r (List.mem_cons_of_mem _ hw) hb2
          rw [serializeElems]
          simp [List.length_append] at hl2 ⊢
          omega
        · simp at hf
          omega
      rw [serializeElems]
      simp only [List.cons_append, List.append_assoc]
      rw [parseElems_comma]
      simp [h1, h2]

theorem parseField_spec (pv : List Char → Option (JSONValue × List Char))
    (k : List Char) (v : JSONValue) (r : List Char)
    (hpv : pv (serialize v ++ r) = some (v, r)) :
    parseField pv (serializeField (k, v) ++ r) = some ((k, v), r) := by
  rw [serializeField]
  simp only [List.cons_append, List.append_assoc, List.nil_append]
  rw [parseField_quote]
  rw [parseStringBody_escape]
  simp [hpv]

theorem parseFields_spec (pv : List Char → Option (JSONValue × List Char)) :
    ∀ (fs : List (List Char × JSONValue)) (rest : List Char) (fuel : Nat),
      (∀ k v r, (k, v) ∈ fs → isBoundary r = true →
        (serialize v).length + r.length ≤ (serializeFields fs).length + rest.length →
        pv (serialize v ++ r) = some (v, r)) →
      fs.length < fuel →
      parseFields pv fuel (serializeFields fs ++ '\x7d' :: rest) = some (fs, rest) := by
  intro fs
  induction fs with
  | nil =>
    intro rest fuel _ _
    rw [serializeFields, List.nil_append, parseFields_rb]
  | cons fld fs IH =>
    intro rest fuel Hpv hf
    cases fuel with
    | zero => simp at hf
    | succ f =>
      obtain ⟨k, v⟩ := fld
      have hb : isBoundary (serializeFields fs ++ '\x7d' :: rest) = true :=
        isBoundary_serializeFields fs rest
      have h1 : pv (serialize v ++ (serializeFields fs ++ '\x7d' :: rest))
          = some (v, serializeFields fs ++ '\x7d' :: rest) := by
        apply Hpv k v _ (List.mem_cons_self _ _) hb
        rw [serializeFields, serializeField]
        simp [List.length_append]
        omega
      have hfld := parseField_spec pv k v _ h1
      have h2 : parseFields pv f (serializeFields fs ++ '\x7d' :: rest) = some (fs, rest) := by
        apply IH
        · intro k2 v2 r hw hb2 hl2
          apply Hpv k2 v2 r (List.mem_cons_of_mem _ hw) hb2
          rw [serializeFields]
          simp [List.length_append] at hl2 ⊢
          omega
        · simp at hf
          omega
      rw [serializeFields]
      simp only [List.cons_append, List.append_assoc]
      rw [parseFields_comma]
      simp [hfld, h2]

theorem parseVal_serialize : ∀ (fuel : Nat) (v : JSONValue) (rest : List Char),
    isBoundary rest = true →
    (serialize v).length + rest.length < fuel →
    parseVal fuel (serialize v ++ rest) = some (v, rest) := by
  intro fuel
  induction fuel with
  | zero =>
    intro v rest _ h
    omega
  | succ f IH =>
    intro v rest hb hlen
    cases v with
    | null => exact parseVal_null f rest
    | bool b =>
      cases b with
      | true => exact parseVal_true f rest
      | false => exact parseVal_false f rest
    | num n =>
      cases n with
      | ofNat m =>
        obtain ⟨c, cs, hc⟩ := List.exists_cons_of_ne_nil (natChars_ne_nil m)
        have hdig : isDigitChar c = true := by
          apply natChars_all_digits m
          rw [hc]
          exact List.mem_cons_self _ _
        have hshape : serialize (.num (Int.ofNat m)) ++ rest = c :: (cs ++ rest) := by
          rw [serialize, intChars, hc]
          simp
        rw [hshape, parseVal_digit f c _ hdig]
        rw [show c :: (cs ++ rest) = natChars m ++ rest by rw [hc]; simp]
        rw [parseNat_natChars m hb]
        simp
      | negSucc m =>
        have hshape : serialize (.num (Int.negSucc m)) ++ rest
            = '-' :: (natChars (m + 1) ++ rest) := by
          rw [serialize, intChars]
          simp
        rw [hshape, parseVal_neg f _, parseNat_natChars (m + 1) hb]
        simp [Int.negSucc_eq]
    | str s =>
      have hshape : serialize (.str s) ++ rest = '"' :: (escapeString s ++ '"' :: rest) := by
        rw [serialize]
        simp
      rw [hshape, parseVal_str f _, parseStringBody_escape]
      rfl
    | arr l =>
      cases l with
      | nil =>
        rw [show serialize (.arr []) ++ rest = '[' :: ']' :: rest by rw [serialize]; rfl]
        exact parseVal_arr_rb f rest
      | cons w ws =>
        obtain ⟨c, cs, hw, hcOK⟩ := serialize_head w
        have hne : c ≠ ']' := (startOK_ne hcOK).1
        have hL : (serialize (.arr (w :: ws))).length
            = 1 + ((serialize w).length + ((serializeElems ws).length + 1)) := by
          rw [serialize]
          simp [List.length_append]
          omega
        rw [hL] at hlen
        have hshape : serialize (.arr (w :: ws)) ++ rest
            = '[' :: (c :: (cs ++ (serializeElems ws ++ ']' :: rest))) := by
          rw [serialize, hw]
          simp
        rw [hshape, parseVal_arr_cons f c _, if_neg hne]
        rw [show c :: (cs ++ (serializeElems ws ++ ']' :: rest))
            = serialize w ++ (serializeElems ws ++ ']' :: rest) by rw [hw]; simp]
        have h1 : parseVal f (serialize w ++ (serializeElems ws ++ ']' :: rest))
            = some (w, serializeElems ws ++ ']' :: rest) := by
          apply IH w _ (isBoundary_serializeElems ws rest)
          simp [List.length_append]
          omega
        have h2 : parseElems (parseVal f) f (serializeElems ws ++ ']' :: rest)
            = some (ws, rest) := by
          apply parseElems_spec
          · intro v2 r hv2 hb2 hl2
            apply IH v2 r hb2
            omega
          · have := length_serializeElems ws
            omega
        simp [h1, h2]
    | obj l =>
      cases l with
      | nil =>
        rw [show serialize (.obj []) ++ rest = '\x7b' :: '\x7d' :: rest by rw [serialize]; rfl]
        exact parseVal_obj_rb f rest
      | cons fld fs =>
        obtain ⟨k, w⟩ := fld
        have hfldshape : serializeField (k, w) = '"' :: (escapeString k ++ ['"', ':']
            ++ serialize w) := by
          rw [serializeField]
        have hL : (serialize (.obj ((k, w) :: fs))).length
            = 1 + (((escapeString k).length + 2 + (serialize w).length + 1)
              + ((serializeFields fs).length + 1)) := by
          rw [serialize, serializeField]
          simp [List.length_append]
          omega
        rw [hL] at hlen
        have hshape : serialize (.obj ((k, w) :: fs)) ++ rest
            = '\x7b' :: ('"' :: ((escapeString k ++ ['"', ':'] ++ serialize w)
              ++ (serializeFields fs ++ '\x7d' :: rest))) := by
          rw [serialize, hfldshape]
          simp
        rw [hshape, parseVal_obj_cons f '"' _, if_neg (by decide)]
        rw [show ('"' : Char) :: ((escapeString k ++ ['"', ':'] ++ serialize w)
              ++ (serializeFields fs ++ '\x7d' :: rest))
            = serializeField (k, w) ++ (serializeFields fs ++ '\x7d' :: rest) by
          rw [hfldshape]; simp]
        have h1 : parseVal f (serialize w ++ (serializeFields fs ++ '\x7d' :: rest))
            = some (w, serializeFields fs ++ '\x7d' :: rest) := by
          apply IH w _ (isBoundary_serializeFields fs rest)
          simp [List.length_append]
          omega
        have hfld := parseField_spec (parseVal f) k w _ h1
        have h2 : parseFields (parseVal f) f (serializeFields fs ++ '\x7d' :: rest)
            = some (fs, rest) := by
          apply parseFields_spec
          · intro k2 v2 r hv2 hb2 hl2
            apply IH v2 r hb2
            omega
          · have := length_serializeFields fs
            omega
        simp [hfld, h2]

/-- Round-trip law of the JS `JSON` builtins, proved for the model:
parsing a serialized value recovers the value. -/
theorem parse_serialize (v : JSONValue) : parse (serialize v) = some v := by
  have h := parseVal_serialize ((serialize v).length + 1) v [] rfl (by simp)
  rw [List.append_nil] at h
  rw [parse, h]

/-! ## The model layer

Translations of `src/notebook/model.ts` (the `NotebookModel`) and of the
cells model it imports (`BaseCellModel`, `CodeCellModel`,
`MarkdownCellModel`, `RawCellModel`, `MetadataCursor`).  TypeScript
`string` fields that are initialized to `null` are `Option (List Char)`;
`number` fields initialized to `null` are `Option Int`.  Signal emissions
are modelled by returning the list of emitted change records. -/

/-- A change record, the argument of `stateChanged` / `contentChanged`
emissions: attribute name, previous value, new value (values rendered as
JSON values). -/
structure ChangedArgs where
  name : List Char
  oldValue : JSONValue
  newValue : JSONValue

/-- JS view of a nullable string. -/
def jsStr : Option (List Char) → JSONValue
  | none => .null
  | some s => .str s

/-- JS view of a nullable number. -/
def optIntJSON : Option Int → JSONValue
  | none => .null
  | some n => .num n

/-! ### Strict equality and `shallowEquals` (externals)

`strictEqStrJSON` is JS `===` between a `string | undefined` (a stored
serialization, or an absent key) and an arbitrary JSON value: true exactly
when the value is a string with the same characters.  `shallowEquals` is
the helper from `jupyter-js-utils`: strict equality, or element-wise /
key-wise strict equality for arrays and plain objects.  Strict equality on
composite values is reference equality; the model renders it false, which
is faithful here because one side is always a freshly parsed copy. -/

def jsStrictEqVal : JSONValue → JSONValue → Bool
  | .null, .null => true
  | .bool a, .bool b => a == b
  | .num a, .num b => a == b
  | .str a, .str b => a == b
  | _, _ => false

def strictEqStrJSON : Option (List Char) → JSONValue → Bool
  | some s, .str t => s == t
  | _, _ => false

def shallowEquals (a b : JSONValue) : Bool :=
  jsStrictEqVal a b ||
    (match a, b with
     | .arr xs, .arr ys =>
       xs.length == ys.length && (xs.zip ys).all fun p => jsStrictEqVal p.1 p.2
     | .obj xs, .obj ys =>
       xs.length == ys.length &&
         xs.all fun kv => ((ys.lookup kv.1).map fun w => jsStrictEqVal kv.2 w).getD false
     | _, _ => false)

/-! ### The metadata map

A JS object used as a string-to-string dictionary (`Object.create(null)`),
as an insertion-ordered association list. -/

/-- Property read: `obj[k]`, `undefined` when absent. -/
def mapGet : List (List Char × List Char) → List Char → Option (List Char)
  | [], _ => none
  | (k2, v2) :: rest, k => if k2 = k then some v2 else mapGet rest k

/-- Property write: `obj[k] = v` (replace in place, else append). -/
def mapSet : List (List Char × List Char) → List Char → List Char → List (List Char × List Char)
  | [], k, v => [(k, v)]
  | (k2, v2) :: rest, k, v =>
    if k2 = k then (k2, v) :: rest else (k2, v2) :: mapSet rest k v

/-! ### MetadataCursor

A cursor is a capability on one namespace of an owning metadata map; its
operations are modelled as functions of the map and the namespace key.
The returned `Bool` of `setValue` reports whether the change callback
(which emits `metadataChanged` with the namespace name) was invoked. -/

/-- Translation of `MetadataCursor.getValue`:
`JSON.parse(this._metadata[this._name] || 'null')`. -/
def MetadataCursor.getValue (metadata : List (List Char × List Char)) (name : List Char) :
    Option JSONValue :=
  parse ((mapGet metadata name).getD "null".data)

/-- Translation of `MetadataCursor.setValue`: reads `prev = metadata[name]`,
returns unchanged when `prev === value` (the raw, unserialized value),
otherwise stores `JSON.stringify(value)` and invokes the callback. -/
def MetadataCursor.setValue (metadata : List (List Char × List Char)) (name : List Char)
    (value : JSONValue) : List (List Char × List Char) × Bool :=
  let prev := mapGet metadata name
  if strictEqStrJSON prev value then (metadata, false)
  else (mapSet metadata name (serialize value), true)

/-! ### Output area (collaborator)

Modelled from the spec: the output collection is an ordered, appendable
collection of execution-result records with a trusted flag and disposal;
it is owned by its code cell.  Output entries are opaque (identifiers). -/

structure OutputAreaState where
  outputs : List Nat := []
  trusted : Bool := false
  disposed : Bool := false

/-- Modelled from the spec: disposing the owned output collection. -/
def OutputAreaModel.dispose (o : OutputAreaState) : OutputAreaState :=
  { o with disposed := true }

/-! ### Cell models -/

/-- The `type` discriminant of a cell. -/
inductive CellKind : Type where
  | code : CellKind
  | markdown : CellKind
  | raw : CellKind
deriving DecidableEq

/-- State of `BaseCellModel`: the private fields of the class.
`signalData` stands for the phosphor signal registrations attached to the
instance (cleared by `clearSignalData`). -/
structure BaseCellState where
  disposed : Bool := false
  source : Option (List Char) := none
  tags : List Char := ['[', ']']
  name : Option (List Char) := none
  trusted : Bool := false
  metadata : List (List Char × List Char) := []
  signalData : List Nat := []

/-- Translation of the `isDisposed` getter: `return true;`. -/
def BaseCellModel.isDisposed (_st : BaseCellState) : Bool := true

/-- External `clearSignalData`: removes every signal registration of the
owner. -/
def clearSignalData (st : BaseCellState) : BaseCellState :=
  { st with signalData := [] }

/-- Translation of `BaseCellModel.dispose`: early return when already
disposed, else clear signal data and set the disposed flag. -/
def BaseCellModel.dispose (st : BaseCellState) : BaseCellState :=
  if BaseCellModel.isDisposed st then st
  else { clearSignalData st with disposed := true }

/-- Translation of the `source` setter. -/
def BaseCellModel.setSource (st : BaseCellState) (newValue : Option (List Char)) :
    BaseCellState × List ChangedArgs :=
  if newValue = st.source then (st, [])
  else ({ st with source := newValue },
    [⟨"source".data, jsStr st.source, jsStr newValue⟩])

/-- Translation of the `name` setter. -/
def BaseCellModel.setName (st : BaseCellState) (newValue : Option (List Char)) :
    BaseCellState × List ChangedArgs :=
  if newValue = st.name then (st, [])
  else ({ st with name := newValue },
    [⟨"name".data, jsStr st.name, jsStr newValue⟩])

/-- Translation of the `tags` setter: parse the stored serialization,
compare with `shallowEquals`, store the new serialization.  `none` models
a `JSON.parse` exception. -/
def BaseCellModel.setTags (st : BaseCellState) (newValue : JSONValue) :
    Option (BaseCellState × List ChangedArgs) :=
  (parse st.tags).map fun oldValue =>
    if shallowEquals oldValue newValue then (st, [])
    else ({ st with tags := serialize newValue }, [⟨"tags".data, oldValue, newValue⟩])

/-- Translation of the `tags` getter: `JSON.parse(this._tags)`. -/
def BaseCellModel.tagsValue (st : BaseCellState) : Option JSONValue :=
  parse st.tags

/-- The result of `getMetadata`: a cursor bound to a namespace key. -/
structure MetadataCursor where
  name : List Char

/-- The `scrolled` attribute: `boolean | 'auto'`. -/
inductive ScrollSetting : Type where
  | scrollBool (b : Bool) : ScrollSetting
  | auto : ScrollSetting
deriving DecidableEq

/-- JS view of a scroll setting. -/
def scrollJSON : ScrollSetting → JSONValue
  | .scrollBool b => .bool b
  | .auto => .str "auto".data

/-- Unified cell-model state (the tagged union of the `Code`, `Markdown`
and `Raw` variants over the shared base).  Code-only fields keep their
class defaults on the other variants. -/
structure CellModelState where
  kind : CellKind
  base : BaseCellState := {}
  output : Option OutputAreaState := none
  scrolled : ScrollSetting := .scrollBool false
  collapsed : Bool := false
  executionCount : Option Int := none
  format : Option (List Char) := none

/-- Type guard `isCodeCellModel`: `m.type === 'code'`. -/
def isCodeCellModel (st : CellModelState) : Bool := st.kind == .code

/-- Type guard `isMarkdownCellModel`. -/
def isMarkdownCellModel (st : CellModelState) : Bool := st.kind == .markdown

/-- Type guard `isRawCellModel`. -/
def isRawCellModel (st : CellModelState) : Bool := st.kind == .raw

/-- Observable effects of a trusted-flag write, in execution order. -/
inductive CellEvent : Type where
  | setOutputTrusted (value : Bool) : CellEvent
  | emitStateChanged (args : ChangedArgs) : CellEvent

/-- The change records among a list of cell events. -/
def eventRecords : List CellEvent → List ChangedArgs :=
  List.filterMap fun e =>
    match e with
    | .emitStateChanged args => some args
    | _ => none

/-- Translation of the virtual `onTrustChanged` hook: the base
implementation is a no-op; `CodeCellModel` overrides it with
`this.output.trusted = value`. -/
def CellModel.onTrustChanged (st : CellModelState) (value : Bool) :
    CellModelState × List CellEvent :=
  match st.kind with
  | .code => ({ st with output := st.output.map fun o => { o with trusted := value } },
      [.setOutputTrusted value])
  | _ => (st, [])

/-- Translation of the `trusted` setter: early return on equal value, else
store, run the virtual hook, then emit the change record. -/
def CellModel.setTrusted (st : CellModelState) (newValue : Bool) :
    CellModelState × List CellEvent :=
  if newValue = st.base.trusted then (st, [])
  else
    let st1 := { st with base := { st.base with trusted := newValue } }
    let hook := CellModel.onTrustChanged st1 newValue
    (hook.1, hook.2 ++
      [.emitStateChanged ⟨"trusted".data, .bool st.base.trusted, .bool newValue⟩])

/-- Translation of the `executionCount` setter of `CodeCellModel`. -/
def CodeCellModel.setExecutionCount (st : CellModelState) (value : Option Int) :
    CellModelState × List ChangedArgs :=
  if st.executionCount = value then (st, [])
  else ({ st with executionCount := value },
    [⟨"executionCount".data, optIntJSON st.executionCount, optIntJSON value⟩])

/-- Translation of the `collapsed` setter of `CodeCellModel`. -/
def CodeCellModel.setCollapsed (st : CellModelState) (value : Bool) :
    CellModelState × List ChangedArgs :=
  if st.collapsed = value then (st, [])
  else ({ st with collapsed := value },
    [⟨"collapsed".data, .bool st.collapsed, .bool value⟩])

/-- Translation of the `scrolled` setter of `CodeCellModel`. -/
def CodeCellModel.setScrolled (st : CellModelState) (value : ScrollSetting) :
    CellModelState × List ChangedArgs :=
  if st.scrolled = value then (st, [])
  else ({ st with scrolled := value },
    [⟨"scrolled".data, scrollJSON st.scrolled, scrollJSON value⟩])

/-- Translation of the `format` setter of `RawCellModel`. -/
def RawCellModel.setFormat (st : CellModelState) (value : Option (List Char)) :
    CellModelState × List ChangedArgs :=
  if st.format = value then (st, [])
  else ({ st with format := value },
    [⟨"format".data, jsStr st.format, jsStr value⟩])

/-- Translation of `dispose`: `CodeCellModel.dispose` first disposes the
owned output collection and drops the reference, then calls
`super.dispose()`; the other variants use `BaseCellModel.dispose`.  Both
start with the `isDisposed` early-return guard. -/
def CellModel.dispose (st : CellModelState) : CellModelState :=
  match st.kind with
  | .code =>
    if BaseCellModel.isDisposed st.base then st
    else
      let _disposedOutput := st.output.map OutputAreaModel.dispose
      { st with output := none, base := BaseCellModel.dispose st.base }
  | _ =>
    if BaseCellModel.isDisposed st.base then st
    else { st with base := BaseCellModel.dispose st.base }

/-- Constructor of `CodeCellModel`: takes ownership of the supplied output
collection. -/
def CodeCellModel.new (output : OutputAreaState) : CellModelState :=
  { kind := .code, output := some output }

/-- Constructor of `MarkdownCellModel`. -/
def MarkdownCellModel.new : CellModelState := { kind := .markdown }

/-- Constructor of `RawCellModel`. -/
def RawCellModel.new : CellModelState := { kind := .raw }

/-! ### Notebook model -/

/-- The default notebook kernelspec metadata. -/
def DEFAULT_KERNELSPEC : JSONValue :=
  .obj [("name".data, .str "unknown".data), ("display_name".data, .str "No Kernel!".data)]

/-- The default notebook languageinfo metadata. -/
def DEFAULT_LANG_INFO : JSONValue :=
  .obj [("name".data, .str "unknown".data)]

/-- State of `NotebookModel`: the serialized kernelspec and language-info,
the original nbformat version, and the user metadata map.  The cell list
lives in the observable list collaborator. -/
structure NotebookState where
  kernelspec : List Char := serialize DEFAULT_KERNELSPEC
  langInfo : List Char := serialize DEFAULT_LANG_INFO
  origNbformat : Option Int := none
  metadata : List (List Char × List Char) := []

/-- Translation of the `kernelspec` setter: parse the stored
serialization, compare with `shallowEquals`, store and emit on change. -/
def NotebookModel.setKernelspec (st : NotebookState) (newValue : JSONValue) :
    Option (NotebookState × List ChangedArgs) :=
  (parse st.kernelspec).map fun oldValue =>
    if shallowEquals oldValue newValue then (st, [])
    else ({ st with kernelspec := serialize newValue },
      [⟨"kernelspec".data, oldValue, newValue⟩])

/-- Translation of the `languageInfo` setter. -/
def NotebookModel.setLanguageInfo (st : NotebookState) (newValue : JSONValue) :
    Option (NotebookState × List ChangedArgs) :=
  (parse st.langInfo).map fun oldValue =>
    if shallowEquals oldValue newValue then (st, [])
    else ({ st with langInfo := serialize newValue },
      [⟨"languageInfo".data, oldValue, newValue⟩])

/-- Translation of the `origNbformat` setter. -/
def NotebookModel.setOrigNbformat (st : NotebookState) (newValue : Option Int) :
    NotebookState × List ChangedArgs :=
  if newValue = st.origNbformat then (st, [])
  else ({ st with origNbformat := newValue },
    [⟨"origNbformat".data, optIntJSON st.origNbformat, optIntJSON newValue⟩])

/-- Cells are identified opaquely in the cell-list change events. -/
abbrev CellId := Nat

/-- One change event of the observable cell list (phosphor
`IListChangedArgs`). -/
inductive ListChangedArgs : Type where
  | add (index : Int) (newValue : CellId) : ListChangedArgs
  | move (fromIndex toIndex : Int) (value : CellId) : ListChangedArgs
  | remove (index : Int) (oldValue : CellId) : ListChangedArgs
  | replace (index : Int) (oldValues : List CellId) (newValues : List CellId) : ListChangedArgs
  | set (index : Int) (oldValue : CellId) (newValue : CellId) : ListChangedArgs

/-- Translation of `NotebookModel.onCellsChanged`: the `dispose()` calls
performed by the handler, in order — the removed cell on `Remove`, each
previously-held cell on `Replace`, nothing otherwise. -/
def NotebookModel.onCellsChanged : ListChangedArgs → List CellId
  | .remove _ oldValue => [oldValue]
  | .replace _ oldValues _ => oldValues
  | _ => []

/-- Translation of the static `createOutputArea` factory: a fresh output
area model. -/
def NotebookModel.createOutputArea : OutputAreaState := {}

/-- Translation of `NotebookModel.createCodeCell`: build a fresh code cell
over a new output area, mark it trusted, then copy from the optional
source cell: trusted, source and tags always; collapsed, scrolled and the
output entries (in order) when the source is a code cell.  `none` models a
thrown exception (`JSON.parse` failure on the source tags, or a missing
output collection on a code source). -/
def NotebookModel.createCodeCell (source : Option CellModelState) :
    Option CellModelState :=
  let output := NotebookModel.createOutputArea
  let cell := CodeCellModel.new output
  let cell := (CellModel.setTrusted cell true).1
  match source with
  | none => some cell
  | some src =>
    let cell := (CellModel.setTrusted cell src.base.trusted).1
    let cell := { cell with base := (BaseCellModel.setSource cell.base src.base.source).1 }
    (BaseCellModel.tagsValue src.base).bind fun srcTags =>
      (BaseCellModel.setTags cell.base srcTags).bind fun p =>
        let cell := { cell with base := p.1 }
        if isCodeCellModel src then
          let cell := (CodeCellModel.setCollapsed cell src.collapsed).1
          let cell := (CodeCellModel.setScrolled cell src.scrolled).1
          src.output.map fun srcOut =>
            { cell with output := cell.output.map fun o =>
                { o with outputs := o.outputs ++ srcOut.outputs } }
        else some cell

/-! ### The input-area code cell (the earlier cells model)

The repository also carries an input-area-based cells model whose
`CodeCellModel.executionCount` setter drives the input prompt.  Its state
is stored in shared phosphor property descriptors; `Property.set` emits a
change record exactly when the value changes. -/

/-- The prompt text: `In [${value === null ? ' ' : value}]:`. -/
def promptFor (value : Option Int) : List Char :=
  "In [".data ++ (match value with
    | none => [' ']
    | some n => intChars n) ++ "]:".data

/-- State of the input-area `CodeCellModel`: the execution-count property
and the input prompt (set to `'In [ ]:'` in the constructor). -/
structure InputAreaCodeCellState where
  executionCount : Option Int := none
  prompt : List Char := "In [ ]:".data

/-- Translation of the input-area `executionCount` setter: set the
property (which notifies exactly when the value changes), then rewrite the
prompt from the new value. -/
def InputAreaCodeCellModel.setExecutionCount (st : InputAreaCodeCellState)
    (value : Option Int) : InputAreaCodeCellState × List ChangedArgs :=
  let recs := if st.executionCount = value then []
    else [⟨"executionCount".data, optIntJSON st.executionCount, optIntJSON value⟩]
  ({ st with executionCount := value, prompt := promptFor value }, recs)

/-! ## Supporting lemmas -/

theorem mapGet_mapSet : ∀ (m : List (List Char × List Char)) (k v : List Char),
    mapGet (mapSet m k v) k = some v := by
  intro m k v
  induction m with
  | nil => simp [mapSet, mapGet]
  | cons p m IH =>
    obtain ⟨k2, v2⟩ := p
    by_cases h : k2 = k
    · simp [mapSet, mapGet, h]
    · simp [mapSet, mapGet, h, IH]

/-! ## The claims -/

/-- C1 (counterexample): on a fresh metadata map, two successive
`setValue` calls with the structurally equal value `"a"` both invoke the
change callback — the stored serialized string `"\"a\""` is never
strictly equal to the raw string `"a"`, so the claimed
serialized-against-serialized comparison (callback at most once) does not
describe the code. -/
theorem claim_C1_counterexample :
    (MetadataCursor.setValue [] "myext".data (.str "a".data)).2 = true
    ∧ (MetadataCursor.setValue (MetadataCursor.setValue [] "myext".data (.str "a".data)).1
        "myext".data (.str "a".data)).2 = true := ⟨rfl, rfl⟩

/-- C1 (amended): `setValue(v)` compares the raw value `v` against the
currently stored serialized string with JS strict equality; exactly when
they differ it stores the serialization of `v` and invokes the change
callback, and otherwise it leaves the map untouched and does not invoke
the callback. -/
theorem claim_C1_amended_theorem (metadata : List (List Char × List Char))
    (name : List Char) (v : JSONValue) :
    ((MetadataCursor.setValue metadata name v).2
        = !(strictEqStrJSON (mapGet metadata name) v))
    ∧ ((MetadataCursor.setValue metadata name v).2 = true →
        mapGet (MetadataCursor.setValue metadata name v).1 name = some (serialize v))
    ∧ ((MetadataCursor.setValue metadata name v).2 = false →
        (MetadataCursor.setValue metadata name v).1 = metadata) := by
  by_cases h : strictEqStrJSON (mapGet metadata name) v = true
  · simp [MetadataCursor.setValue, h]
  · simp only [Bool.not_eq_true] at h
    simp [MetadataCursor.setValue, h, mapGet_mapSet]

/-- C1 (witness): the amended claim evaluated on a fresh map at `3`. -/
theorem claim_C1_witness :
    (MetadataCursor.setValue [] "k".data (.num 3)).2 = true
    ∧ mapGet (MetadataCursor.setValue [] "k".data (.num 3)).1 "k".data
        = some (serialize (.num 3)) :=
  ⟨rfl, (claim_C1_amended_theorem [] "k".data (.num 3)).2.1 rfl⟩

/-- C2 (code bug, evaluated): disposing a fresh code cell — holding a live
output collection and live signal registrations — returns the state
unchanged: the `isDisposed` getter returns `true` unconditionally, so
`dispose` takes the early-return branch, never disposes the output
collection and never clears signal data. -/
theorem claim_C2_code_bug :
    CellModel.dispose { kind := .code, base := { signalData := [5] }, output := some { outputs := [7] } }
      = { kind := .code, base := { signalData := [5] }, output := some { outputs := [7] } } := rfl

/-- C3: for every cell state the `isDisposed` getter returns `true` — in
particular immediately after construction — and consequently every call
to `dispose` (base or any variant) takes the already-disposed early-return
branch and leaves the state unchanged. -/
theorem claim_C3_theorem :
    (∀ st : BaseCellState, BaseCellModel.isDisposed st = true)
    ∧ (∀ st : BaseCellState, BaseCellModel.dispose st = st)
    ∧ (∀ st : CellModelState, CellModel.dispose st = st) := by
  refine ⟨fun _ => rfl, fun st => rfl, fun st => ?_⟩
  cases hk : st.kind <;> simp [CellModel.dispose, BaseCellModel.isDisposed, hk]

/-- C6 (counterexample): write `null`, then write the string `"null"`:
the stored serialized text `null` is strictly equal to the raw string
`"null"`, so the second `setValue` is a no-op, and `getValue` returns
`null` — not a value structurally equal to the string `"null"` that was
just set. -/
theorem claim_C6_counterexample :
    MetadataCursor.getValue
        (MetadataCursor.setValue (MetadataCursor.setValue [] "x".data .null).1
          "x".data (.str "null".data)).1 "x".data = some .null
    ∧ MetadataCursor.getValue
        (MetadataCursor.setValue (MetadataCursor.setValue [] "x".data .null).1
          "x".data (.str "null".data)).1 "x".data ≠ some (.str "null".data) := by
  refine ⟨rfl, ?_⟩
  have e : MetadataCursor.getValue
      (MetadataCursor.setValue (MetadataCursor.setValue [] "x".data .null).1
        "x".data (.str "null".data)).1 "x".data = some JSONValue.null := rfl
  rw [e]
  simp

/-- C6 (amended): `getValue` on a never-written namespace returns `null`;
and whenever the stored serialized string for the namespace is not
strictly equal to the raw value `v` (always the case on a never-written
namespace, and whenever `v` is not a string), `setValue(v)` followed by
`getValue()` returns a value structurally equal to `v`. -/
theorem claim_C6_amended_theorem :
    (∀ (metadata : List (List Char × List Char)) (name : List Char),
      mapGet metadata name = none → MetadataCursor.getValue metadata name = some .null)
    ∧ (∀ (metadata : List (List Char × List Char)) (name : List Char) (v : JSONValue),
      strictEqStrJSON (mapGet metadata name) v = false →
      MetadataCursor.getValue (MetadataCursor.setValue metadata name v).1 name = some v) := by
  constructor
  · intro metadata name h
    unfold MetadataCursor.getValue
    rw [h]
    rfl
  · intro metadata name v h
    simp [MetadataCursor.setValue, MetadataCursor.getValue, h, mapGet_mapSet, parse_serialize]

/-- C6 (witness): the amended round-trip evaluated on a fresh map at `7`. -/
theorem claim_C6_witness :
    strictEqStrJSON (mapGet [] "myext".data) (.num 7) = false
    ∧ MetadataCursor.getValue (MetadataCursor.setValue [] "myext".data (.num 7)).1
        "myext".data = some (.num 7) :=
  ⟨rfl, claim_C6_amended_theorem.2 [] "myext".data (.num 7) rfl⟩

/-- C8: the cell-list change handler disposes exactly the removed cell on
a removal (once), disposes exactly the previously-held cells on a
replacement — so a newly inserted cell is never disposed — and disposes
nothing on the other change kinds. -/
theorem claim_C8_theorem :
    (∀ (i : Int) (c : CellId), NotebookModel.onCellsChanged (.remove i c) = [c])
    ∧ (∀ (i : Int) (c : CellId), (NotebookModel.onCellsChanged (.remove i c)).count c = 1)
    ∧ (∀ (i : Int) (olds news : List CellId),
        NotebookModel.onCellsChanged (.replace i olds news) = olds)
    ∧ (∀ (i : Int) (olds news : List CellId) (c : CellId), c ∉ olds →
        c ∉ NotebookModel.onCellsChanged (.replace i olds news))
    ∧ (∀ (i : Int) (c : CellId), NotebookModel.onCellsChanged (.add i c) = [])
    ∧ (∀ (i j : Int) (c : CellId), NotebookModel.onCellsChanged (.move i j c) = [])
    ∧ (∀ (i : Int) (c d : CellId), NotebookModel.onCellsChanged (.set i c d) = []) := by
  refine ⟨fun i c => rfl, fun i c => ?_, fun i olds news => rfl,
    fun i olds news c h => ?_, fun i c => rfl, fun i j c => rfl, fun i c d => rfl⟩
  · simp [NotebookModel.onCellsChanged]
  · rw [show NotebookModel.onCellsChanged (.replace i olds news) = olds from rfl]
    exact h

/-- C8 (witness): a replacement of cells 1 and 2 by cell 3 does not
dispose cell 3. -/
theorem claim_C8_witness :
    (3 : CellId) ∉ ([1, 2] : List CellId)
    ∧ (3 : CellId) ∉ NotebookModel.onCellsChanged (.replace 0 [1, 2] [3]) :=
  ⟨by decide, claim_C8_theorem.2.2.2.1 0 [1, 2] [3] 3 (by decide)⟩

/-- C9: starting from a code cell with `executionCount` null and the
constructor prompt, setting the count to `5` and then back to null emits
exactly the two change records (null to 5, then 5 to null), and the
derived prompt text is `In [ ]:` while the count is null and `In [5]:`
while it is 5. -/
theorem claim_C9_theorem (st : InputAreaCodeCellState)
    (h0 : st.executionCount = none) (hp : st.prompt = "In [ ]:".data) :
    (InputAreaCodeCellModel.setExecutionCount st (some 5)).2
        = [⟨"executionCount".data, .null, .num 5⟩]
    ∧ (InputAreaCodeCellModel.setExecutionCount
        (InputAreaCodeCellModel.setExecutionCount st (some 5)).1 none).2
        = [⟨"executionCount".data, .num 5, .null⟩]
    ∧ st.prompt = "In [ ]:".data
    ∧ ((InputAreaCodeCellModel.setExecutionCount st (some 5)).1).prompt = "In [5]:".data
    ∧ ((InputAreaCodeCellModel.setExecutionCount
        (InputAreaCodeCellModel.setExecutionCount st (some 5)).1 none).1).prompt
        = "In [ ]:".data := by
  refine ⟨?_, ?_, hp, ?_, ?_⟩
  · simp [InputAreaCodeCellModel.setExecutionCount, h0, optIntJSON]
  · simp [InputAreaCodeCellModel.setExecutionCount, h0, optIntJSON]
  · simp [InputAreaCodeCellModel.setExecutionCount]
    rfl
  · simp [InputAreaCodeCellModel.setExecutionCount]
    rfl

/-- C9 (witness): the toggle evaluated on a freshly constructed cell. -/
theorem claim_C9_witness :
    ({} : InputAreaCodeCellState).executionCount = none
    ∧ ((InputAreaCodeCellModel.setExecutionCount {} (some 5)).1).prompt = "In [5]:".data :=
  ⟨rfl, (claim_C9_theorem {} rfl rfl).2.2.2.1⟩

/-- C10: assigning a changed trusted value to a code cell first sets the
owned output collection's trusted flag and only then emits the trusted
change record (the event trace is exactly hook-then-emit, and the
resulting state carries the re-flagged output); for markdown and raw
cells the trust-change hook performs no action. -/
theorem claim_C10_theorem :
    (∀ (st : CellModelState) (o : OutputAreaState) (b : Bool),
      st.kind = .code → st.output = some o → b ≠ st.base.trusted →
      (CellModel.setTrusted st b).2
          = [.setOutputTrusted b,
             .emitStateChanged ⟨"trusted".data, .bool st.base.trusted, .bool b⟩]
        ∧ ((CellModel.setTrusted st b).1).output = some { o with trusted := b })
    ∧ (∀ (st : CellModelState) (b : Bool), st.kind ≠ .code →
        CellModel.onTrustChanged st b = (st, [])) := by
  constructor
  · intro st o b hk ho hb
    constructor
    · simp [CellModel.setTrusted, hb, CellModel.onTrustChanged, hk]
    · simp [CellModel.setTrusted, hb, CellModel.onTrustChanged, hk, ho]
  · intro st b hk
    cases hkk : st.kind with
    | code => exact absurd hkk hk
    | markdown => simp [CellModel.onTrustChanged, hkk]
    | raw => simp [CellModel.onTrustChanged, hkk]

/-- C10 (witness): trusting a fresh code cell evaluates to the
hook-then-emit trace. -/
theorem claim_C10_witness :
    (CellModel.setTrusted { kind := .code, output := some {} } true).2
      = [.setOutputTrusted true,
         .emitStateChanged ⟨"trusted".data, .bool false, .bool true⟩] :=
  (claim_C10_theorem.1 { kind := .code, output := some {} } {} true rfl rfl (by decide)).1

/-- C4: for every observable attribute of a cell or notebook model —
`source`, `name`, `trusted`, `tags`, `executionCount`, `collapsed`,
`scrolled`, `format`, `kernelspec`, `languageInfo`, `origNbformat` —
setting it to a value equal to its current value (strict equality for
scalars, `shallowEquals` for the object-valued `tags`, `kernelspec` and
`languageInfo`) emits no change record, and setting it to an unequal
value emits exactly one record carrying the attribute name, the previous
value and the value set. -/
theorem claim_C4_theorem :
    (∀ (st : BaseCellState) (v : Option (List Char)),
      (v = st.source → (BaseCellModel.setSource st v).2 = [])
      ∧ (v ≠ st.source → (BaseCellModel.setSource st v).2
          = [⟨"source".data, jsStr st.source, jsStr v⟩]))
    ∧ (∀ (st : BaseCellState) (v : Option (List Char)),
      (v = st.name → (BaseCellModel.setName st v).2 = [])
      ∧ (v ≠ st.name → (BaseCellModel.setName st v).2
          = [⟨"name".data, jsStr st.name, jsStr v⟩]))
    ∧ (∀ (st : CellModelState) (b : Bool),
      (b = st.base.trusted → eventRecords (CellModel.setTrusted st b).2 = [])
      ∧ (b ≠ st.base.trusted → eventRecords (CellModel.setTrusted st b).2
          = [⟨"trusted".data, .bool st.base.trusted, .bool b⟩]))
    ∧ (∀ (st : BaseCellState) (old v : JSONValue), st.tags = serialize old →
      (shallowEquals old v = true → BaseCellModel.setTags st v = some (st, []))
      ∧ (shallowEquals old v = false → BaseCellModel.setTags st v
          = some ({ st with tags := serialize v }, [⟨"tags".data, old, v⟩])))
    ∧ (∀ (st : CellModelState) (v : Option Int),
      (v = st.executionCount → (CodeCellModel.setExecutionCount st v).2 = [])
      ∧ (v ≠ st.executionCount → (CodeCellModel.setExecutionCount st v).2
          = [⟨"executionCount".data, optIntJSON st.executionCount, optIntJSON v⟩]))
    ∧ (∀ (st : CellModelState) (b : Bool),
      (b = st.collapsed → (CodeCellModel.setCollapsed st b).2 = [])
      ∧ (b ≠ st.collapsed → (CodeCellModel.setCollapsed st b).2
          = [⟨"collapsed".data, .bool st.collapsed, .bool b⟩]))
    ∧ (∀ (st : CellModelState) (v : ScrollSetting),
      (v = st.scrolled → (CodeCellModel.setScrolled st v).2 = [])
      ∧ (v ≠ st.scrolled → (CodeCellModel.setScrolled st v).2
          = [⟨"scrolled".data, scrollJSON st.scrolled, scrollJSON v⟩]))
    ∧ (∀ (st : CellModelState) (v : Option (List Char)),
      (v = st.format → (RawCellModel.setFormat st v).2 = [])
      ∧ (v ≠ st.format → (RawCellModel.setFormat st v).2
          = [⟨"format".data, jsStr st.format, jsStr v⟩]))
    ∧ (∀ (st : NotebookState) (old v : JSONValue), st.kernelspec = serialize old →
      (shallowEquals old v = true → NotebookModel.setKernelspec st v = some (st, []))
      ∧ (shallowEquals old v = false → NotebookModel.setKernelspec st v
          = some ({ st with kernelspec := serialize v }, [⟨"kernelspec".data, old, v⟩])))
    ∧ (∀ (st : NotebookState) (old v : JSONValue), st.langInfo = serialize old →
      (shallowEquals old v = true → NotebookModel.setLanguageInfo st v = some (st, []))
      ∧ (shallowEquals old v = false → NotebookModel.setLanguageInfo st v
          = some ({ st with langInfo := serialize v }, [⟨"languageInfo".data, old, v⟩])))
    ∧ (∀ (st : NotebookState) (v : Option Int),
      (v = st.origNbformat → (NotebookModel.setOrigNbformat st v).2 = [])
      ∧ (v ≠ st.origNbformat → (NotebookModel.setOrigNbformat st v).2
          = [⟨"origNbformat".data, optIntJSON st.origNbformat, optIntJSON v⟩])) := by
  refine ⟨?_, ?_, ?_, ?_, ?_, ?_, ?_, ?_, ?_, ?_, ?_⟩
  · intro st v
    exact ⟨fun h => by simp [BaseCellModel.setSource, h],
      fun h => by simp [BaseCellModel.setSource, h]⟩
  · intro st v
    exact ⟨fun h => by simp [BaseCellModel.setName, h],
      fun h => by simp [BaseCellModel.setName, h]⟩
  · intro st b
    constructor
    · intro h
      simp [CellModel.setTrusted, h, eventRecords]
    · intro h
      cases hkk : st.kind <;>
        simp [CellModel.setTrusted, h, CellModel.onTrustChanged, hkk, eventRecords]
  · intro st old v hst
    constructor
    · intro h
      simp [BaseCellModel.setTags, hst, parse_serialize, h]
    · intro h
      simp [BaseCellModel.setTags, hst, parse_serialize, h]
  · intro st v
    constructor
    · intro h
      simp [CodeCellModel.setExecutionCount, h]
    · intro h
      simp [CodeCellModel.setExecutionCount, Ne.symm h]
  · intro st b
    constructor
    · intro h
      simp [CodeCellModel.setCollapsed, h]
    · intro h
      simp [CodeCellModel.setCollapsed, Ne.symm h]
  · intro st v
    constructor
    · intro h
      simp [CodeCellModel.setScrolled, h]
    · intro h
      simp [CodeCellModel.setScrolled, Ne.symm h]
  · intro st v
    constructor
    · intro h
      simp [RawCellModel.setFormat, h]
    · intro h
      simp [RawCellModel.setFormat, Ne.symm h]
  · intro st old v hst
    constructor
    · intro h
      simp [NotebookModel.setKernelspec, hst, parse_serialize, h]
    · intro h
      simp [NotebookModel.setKernelspec, hst, parse_serialize, h]
  · intro st old v hst
    constructor
    · intro h
      simp [NotebookModel.setLanguageInfo, hst, parse_serialize, h]
    · intro h
      simp [NotebookModel.setLanguageInfo, hst, parse_serialize, h]
  · intro st v
    constructor
    · intro h
      simp [NotebookModel.setOrigNbformat, h]
    · intro h
      simp [NotebookModel.setOrigNbformat, h]

/-- C4 (witness): a no-op source write on a fresh cell emits nothing; an
actual source write and an actual tags write each emit their single
record. -/
theorem claim_C4_witness :
    (BaseCellModel.setSource {} none).2 = []
    ∧ (BaseCellModel.setSource {} (some "x".data)).2
        = [⟨"source".data, .null, .str "x".data⟩]
    ∧ BaseCellModel.setTags {} (.arr [.str "t".data])
        = some ({ ({} : BaseCellState) with tags := serialize (.arr [.str "t".data]) },
            [⟨"tags".data, .arr [], .arr [.str "t".data]⟩]) := by
  refine ⟨?_, ?_, ?_⟩
  · exact (claim_C4_theorem.1 {} none).1 rfl
  · exact (claim_C4_theorem.1 {} (some "x".data)).2 (by simp)
  · exact ((claim_C4_theorem.2.2.2.1 {} (.arr []) (.arr [.str "t".data])) rfl).2 rfl

/-! Helper lemmas for the `createCodeCell` clone claim. -/

theorem shallowEquals_emptyArr {tv : JSONValue} (h : shallowEquals (.arr []) tv = true) :
    tv = .arr [] := by
  cases tv with
  | arr ys =>
    cases ys with
    | nil => rfl
    | cons y ys => simp [shallowEquals, jsStrictEqVal] at h
  | null => simp [shallowEquals, jsStrictEqVal] at h
  | bool b => simp [shallowEquals, jsStrictEqVal] at h
  | num n => simp [shallowEquals, jsStrictEqVal] at h
  | str t => simp [shallowEquals, jsStrictEqVal] at h
  | obj fs => simp [shallowEquals, jsStrictEqVal] at h

theorem setSource_fst (st : BaseCellState) (v : Option (List Char)) :
    (BaseCellModel.setSource st v).1 = { st with source := v } := by
  by_cases h : v = st.source
  · subst h
    simp [BaseCellModel.setSource]
  · simp [BaseCellModel.setSource, h]

theorem setCollapsed_fst (st : CellModelState) (b : Bool) :
    (CodeCellModel.setCollapsed st b).1 = { st with collapsed := b } := by
  by_cases h : st.collapsed = b
  · rw [← h]
    simp [CodeCellModel.setCollapsed]
  · simp [CodeCellModel.setCollapsed, h]

theorem setScrolled_fst (st : CellModelState) (v : ScrollSetting) :
    (CodeCellModel.setScrolled st v).1 = { st with scrolled := v } := by
  by_cases h : st.scrolled = v
  · rw [← h]
    simp [CodeCellModel.setScrolled]
  · simp [CodeCellModel.setScrolled, h]

theorem setTags_emptyArr (st : BaseCellState) (tv : JSONValue)
    (h : st.tags = serialize (.arr [])) :
    ∃ T recs, BaseCellModel.setTags st tv = some ({ st with tags := T }, recs)
      ∧ parse T = some tv := by
  by_cases hs : shallowEquals (.arr []) tv = true
  · have htv : tv = .arr [] := shallowEquals_emptyArr hs
    subst htv
    refine ⟨st.tags, [], ?_, ?_⟩
    · simp [BaseCellModel.setTags, h, parse_serialize, hs]
      rw [← h]
    · rw [h]
      exact parse_serialize _
  · refine ⟨serialize tv, [⟨"tags".data, .arr [], tv⟩], ?_, parse_serialize tv⟩
    simp [BaseCellModel.setTags, h, parse_serialize, hs]

theorem createCodeCell_trusted_steps (src : CellModelState) :
    (CellModel.setTrusted
        (CellModel.setTrusted (CodeCellModel.new NotebookModel.createOutputArea) true).1
        src.base.trusted).1
      = { kind := .code, base := { trusted := src.base.trusted },
          output := some { trusted := src.base.trusted } } := by
  cases htr : src.base.trusted <;>
    simp [CodeCellModel.new, NotebookModel.createOutputArea, CellModel.setTrusted,
      CellModel.onTrustChanged]

theorem createCodeCell_some (src : CellModelState) (tv : JSONValue)
    (htags : src.base.tags = serialize tv) :
    ∃ T, parse T = some tv ∧
      NotebookModel.createCodeCell (some src) =
        (if isCodeCellModel src then
          src.output.map fun srcOut =>
            { kind := .code,
              base := { trusted := src.base.trusted, source := src.base.source, tags := T },
              output := some { outputs := srcOut.outputs, trusted := src.base.trusted },
              collapsed := src.collapsed, scrolled := src.scrolled }
        else
          some { kind := .code,
                 base := { trusted := src.base.trusted, source := src.base.source,
                           tags := T },
                 output := some { trusted := src.base.trusted } }) := by
  obtain ⟨T, recs, hst2, hparse⟩ := setTags_emptyArr
    { trusted := src.base.trusted, source := src.base.source } tv rfl
  refine ⟨T, hparse, ?_⟩
  simp only [NotebookModel.createCodeCell]
  rw [createCodeCell_trusted_steps src]
  rw [setSource_fst]
  rw [show BaseCellModel.tagsValue src.base = some tv from by
    rw [BaseCellModel.tagsValue, htags]; exact parse_serialize tv]
  simp only [Option.some_bind]
  rw [hst2]
  simp only [Option.some_bind, setCollapsed_fst, setScrolled_fst]
  by_cases hcode : isCodeCellModel src
  · cases ho : src.output with
    | none => simp [hcode, ho]
    | some srcOut => simp [hcode, ho]
  · simp [hcode]

/-- C7: `createCodeCell(s)` returns a code cell whose trusted, source and
tags equal those of the source cell `s`; when `s` is a code cell the new
cell additionally takes its collapsed and scrolled values and its output
collection holds the source's output entries in order; when `s` is not a
code cell the code-specific fields keep their defaults (`executionCount`
null, collapsed false, scrolled false, empty output collection). -/
theorem claim_C7_theorem (src : CellModelState) (tv : JSONValue)
    (htags : src.base.tags = serialize tv) :
    (src.kind = .code → ∀ srcOut, src.output = some srcOut →
      ∃ cell, NotebookModel.createCodeCell (some src) = some cell
        ∧ cell.kind = .code
        ∧ cell.base.trusted = src.base.trusted
        ∧ cell.base.source = src.base.source
        ∧ parse cell.base.tags = some tv
        ∧ cell.collapsed = src.collapsed
        ∧ cell.scrolled = src.scrolled
        ∧ cell.executionCount = none
        ∧ ∃ o, cell.output = some o ∧ o.outputs = srcOut.outputs)
    ∧ (src.kind ≠ .code →
      ∃ cell, NotebookModel.createCodeCell (some src) = some cell
        ∧ cell.kind = .code
        ∧ cell.base.trusted = src.base.trusted
        ∧ cell.base.source = src.base.source
        ∧ parse cell.base.tags = some tv
        ∧ cell.collapsed = false
        ∧ cell.scrolled = .scrollBool false
        ∧ cell.executionCount = none
        ∧ ∃ o, cell.output = some o ∧ o.outputs = []) := by
  obtain ⟨T, hparse, heq⟩ := createCodeCell_some src tv htags
  constructor
  · intro hk srcOut ho
    rw [heq]
    have hcode : isCodeCellModel src = true := by simp [isCodeCellModel, hk]
    rw [if_pos hcode, ho]
    exact ⟨_, rfl, rfl, rfl, rfl, hparse, rfl, rfl, rfl, _, rfl, rfl⟩
  · intro hk
    rw [heq]
    have hcode : isCodeCellModel src = false := by simp [isCodeCellModel, hk]
    rw [if_neg (by simp [hcode])]
    exact ⟨_, rfl, rfl, rfl, rfl, hparse, rfl, rfl, rfl, _, rfl, rfl⟩

/-- C7 (witness): cloning a code cell from a markdown source keeps the
code-specific defaults. -/
theorem claim_C7_witness :
    ({ kind := .markdown } : CellModelState).base.tags = serialize (.arr [])
    ∧ (∃ cell,
        NotebookModel.createCodeCell (some ({ kind := .markdown } : CellModelState))
          = some cell
        ∧ cell.kind = .code
        ∧ cell.base.trusted = ({ kind := .markdown } : CellModelState).base.trusted
        ∧ cell.base.source = ({ kind := .markdown } : CellModelState).base.source
        ∧ parse cell.base.tags = some (.arr [])
        ∧ cell.collapsed = false
        ∧ cell.scrolled = .scrollBool false
        ∧ cell.executionCount = none
        ∧ ∃ o, cell.output = some o ∧ o.outputs = []) :=
  ⟨rfl, (claim_C7_theorem { kind := .markdown } (.arr []) rfl).2 (by decide)⟩

end JJN
